import Mathlib

/-!
# Simplicial complex operators

A shallow embedding of `simplicial-complex-operators.cpp`.

Modelling conventions.

* An index (`size_t`) is a `Nat`.  The two build functions store the mesh
  counts and the element indices in `int` variables; `toInt` is that
  conversion (32 bits, two's complement), and the matrix constructor and
  `insert` receive the converted values.  The loop counters of the vector
  functions, of `star` and of `closure` are `int` values compared with a
  `size_t` count; they are not converted and are kept as `Nat`.
* A `std::set<size_t>` is a strictly ascending list of indices (`IndexSet`);
  a range-for over it visits the elements in ascending order.
* A sparse matrix is its shape together with the list of stored entries.
  `coeff` and `insert` have preconditions in the matrix library (indices inside
  the shape, `insert` only at a position that holds no entry yet); a call
  outside the precondition has no defined result and is `none` here.
* The mesh is the collaborator of the class: counts, the two endpoints of
  every edge and the incident edges of every face.
* `assignElementIndices` only reads the indices the mesh already has and
  changes nothing; it has no counterpart here.
-/

/-! ## Ordered sets of indices -/

/-- Insertion of an index into a strictly ascending list; a present index is
not inserted twice. -/
def insertAsc (x : Nat) : List Nat → List Nat
  | [] => [x]
  | y :: ys =>
    if x < y then x :: y :: ys
    else if x = y then y :: ys
    else y :: insertAsc x ys

/-- Modelled from the spec: the `std::set<size_t>` components of a
`MeshSubset` ("three sets of indices"), whose declaration is not part of the
source file.  The elements are kept strictly ascending, which is the order a
range-for visits them in. -/
structure IndexSet where
  /-- The elements, in ascending order. -/
  elems : List Nat
  /-- The elements are strictly ascending. -/
  sorted : elems.Sorted (· < ·)

namespace IndexSet

instance : Membership Nat IndexSet := ⟨fun s a => a ∈ s.elems⟩

instance : DecidableEq IndexSet := fun a b =>
  decidable_of_iff (a.elems = b.elems) (by
    cases a; cases b; simp)

instance (a : Nat) (s : IndexSet) : Decidable (a ∈ s) :=
  inferInstanceAs (Decidable (a ∈ s.elems))

/-- The empty set. -/
def empty : IndexSet := ⟨[], List.sorted_nil⟩

/-- The call `s.insert(x)` of `std::set`. -/
def insert (s : IndexSet) (x : Nat) : IndexSet :=
  ⟨insertAsc x s.elems, by
    have mem : ∀ (l : List Nat) (a : Nat), a ∈ insertAsc x l → a = x ∨ a ∈ l := by
      intro l
      induction l with
      | nil => intro a ha; simpa [insertAsc] using ha
      | cons y ys ih =>
        intro a ha
        unfold insertAsc at ha
        split_ifs at ha with h1 h2
        · simpa using ha
        · exact Or.inr ha
        · rcases List.mem_cons.mp ha with ha | ha
          · exact Or.inr (ha ▸ List.mem_cons_self _ _)
          · exact (ih a ha).imp id (List.mem_cons_of_mem _)
    have key : ∀ l : List Nat, l.Sorted (· < ·) → (insertAsc x l).Sorted (· < ·) := by
      intro l
      induction l with
      | nil => intro _; simp [insertAsc]
      | cons y ys ih =>
        intro h
        have hy := List.rel_of_sorted_cons h
        unfold insertAsc
        split_ifs with h1 h2
        · refine List.sorted_cons.mpr ⟨?_, h⟩
          intro b hb
          rcases List.mem_cons.mp hb with hb | hb
          · exact hb ▸ h1
          · exact lt_trans h1 (hy b hb)
        · exact h
        · refine List.sorted_cons.mpr ⟨?_, ih (List.Sorted.of_cons h)⟩
          intro b hb
          rcases mem ys b hb with hb | hb
          · omega
          · exact hy b hb
    exact key _ s.sorted⟩

/-- The call `s.count(x)` of `std::set`: 1 for a member, 0 otherwise. -/
def count (s : IndexSet) (x : Nat) : Nat := if x ∈ s then 1 else 0

/-- The set holding the indices of a list. -/
def ofList (l : List Nat) : IndexSet := l.foldl insert empty

/-- Set difference, component of the difference of two subsets. -/
def diff (s t : IndexSet) : IndexSet :=
  ⟨s.elems.filter (fun x => decide (x ∉ t)), s.sorted.filter _⟩

/-- Every element is below the bound `n`. -/
def Below (s : IndexSet) (n : Nat) : Prop := ∀ x ∈ s, x < n

instance (s : IndexSet) (n : Nat) : Decidable (s.Below n) :=
  inferInstanceAs (Decidable (∀ x ∈ s.elems, x < n))

end IndexSet

/-! ## The subset of a mesh -/

/-- Modelled from the spec: `MeshSubset`, "three sets of indices", with the
`addVertex`, `addEdge` and `addFace` calls the source uses.  Its declaration is
not part of the source file. -/
structure MeshSubset where
  /-- The selected vertices. -/
  vertices : IndexSet
  /-- The selected edges. -/
  edges : IndexSet
  /-- The selected faces. -/
  faces : IndexSet
deriving DecidableEq

namespace MeshSubset

/-- The call `addVertex(index)`. -/
def addVertex (s : MeshSubset) (index : Nat) : MeshSubset :=
  { s with vertices := s.vertices.insert index }

/-- The call `addEdge(index)`. -/
def addEdge (s : MeshSubset) (index : Nat) : MeshSubset :=
  { s with edges := s.edges.insert index }

/-- The call `addFace(index)`. -/
def addFace (s : MeshSubset) (index : Nat) : MeshSubset :=
  { s with faces := s.faces.insert index }

/-- The subset with the listed vertices, edges and faces. -/
def ofLists (vs es fs : List Nat) : MeshSubset :=
  ⟨IndexSet.ofList vs, IndexSet.ofList es, IndexSet.ofList fs⟩

/-- Component-wise difference of two subsets. -/
def diff (s t : MeshSubset) : MeshSubset :=
  ⟨s.vertices.diff t.vertices, s.edges.diff t.edges, s.faces.diff t.faces⟩

end MeshSubset

/-! ## The mesh and the sparse matrices -/

/-- Modelled from the spec: the mesh collaborator, which "exposes counts nV,
nE, nF; stable contiguous indices; per-edge pair of endpoint vertex indices;
per-face ordered set of incident edge indices".  The element with index `i` is
the `i`-th one that `vertices()`, `edges()` or `faces()` enumerates. -/
structure Mesh where
  /-- The count `nVertices()`. -/
  nVertices : Nat
  /-- The count `nEdges()`. -/
  nEdges : Nat
  /-- The count `nFaces()`. -/
  nFaces : Nat
  /-- The index of `firstVertex()` of the edge with the given index. -/
  firstVertex : Nat → Nat
  /-- The index of `secondVertex()` of the edge with the given index. -/
  secondVertex : Nat → Nat
  /-- The indices of `adjacentEdges()` of the face with the given index. -/
  adjacentEdges : Nat → List Nat

namespace Mesh

/-- The endpoints of every edge are vertex indices and the incident edges of
every face are edge indices. -/
def ValidIndices (m : Mesh) : Prop :=
  (∀ e < m.nEdges, m.firstVertex e < m.nVertices ∧ m.secondVertex e < m.nVertices) ∧
  (∀ f < m.nFaces, ∀ e ∈ m.adjacentEdges f, e < m.nEdges)

instance (m : Mesh) : Decidable m.ValidIndices := by
  unfold ValidIndices; infer_instance

/-- The three counts of the mesh are below `2^31`, so that an `int` holds
them, and with them every index of the mesh, unchanged. -/
def FitsInt (m : Mesh) : Prop :=
  m.nVertices < 2147483648 ∧ m.nEdges < 2147483648 ∧ m.nFaces < 2147483648

instance (m : Mesh) : Decidable m.FitsInt := by
  unfold FitsInt; infer_instance

end Mesh

/-- The conversion of a `size_t` value to `int`, as in `int rows = nEdges();`
and `int eidx = edge.getIndex();`: the value modulo `2^32`, read as a signed
32-bit number. -/
def toInt (n : Nat) : Int :=
  Int.ofNat ((n + 2147483648) % 4294967296) - 2147483648

/-- The sparse matrix of the matrix library, with `size_t` values: its shape
and the stored entries `(row, column, value)`, the latest first. -/
structure SparseMatrix where
  /-- The number of rows. -/
  rows : Nat
  /-- The number of columns. -/
  cols : Nat
  /-- The stored entries. -/
  entries : List (Nat × Nat × Nat)
deriving DecidableEq

namespace SparseMatrix

/-- The constructor `SparseMatrix<size_t>(rows, cols)`: no stored entry. -/
def zero (rows cols : Nat) : SparseMatrix := ⟨rows, cols, []⟩

/-- The value stored at a position, when there is one. -/
def stored (m : SparseMatrix) (i j : Nat) : Option Nat :=
  (m.entries.find? (fun t => decide (t.1 = i ∧ t.2.1 = j))).map (fun t => t.2.2)

/-- The call `coeff(i, j)`: the stored value, or zero where nothing is stored.
The position has to be inside the shape. -/
def coeff (m : SparseMatrix) (i j : Nat) : Option Nat :=
  if i < m.rows ∧ j < m.cols then some ((m.stored i j).getD 0) else none

/-- The statement `insert(i, j) = v`: a new stored entry.  The position has to
be inside the shape and to hold no entry yet. -/
def insert (m : SparseMatrix) (i j v : Nat) : Option SparseMatrix :=
  if i < m.rows ∧ j < m.cols ∧ m.stored i j = none then
    some { m with entries := (i, j, v) :: m.entries }
  else none

/-- The constructor `SparseMatrix<size_t>(rows, cols)` called with `int`
values: a matrix without stored entry.  The two sizes must not be negative. -/
def create (rows cols : Int) : Option SparseMatrix :=
  if 0 ≤ rows ∧ 0 ≤ cols then some (zero rows.toNat cols.toNat) else none

/-- The statement `insert(i, j) = v` called with `int` indices: they must not
be negative, and the rest is `insert`. -/
def insertAt (m : SparseMatrix) (i j : Int) (v : Nat) : Option SparseMatrix :=
  if 0 ≤ i ∧ 0 ≤ j then m.insert i.toNat j.toNat v else none

end SparseMatrix

namespace MeshSubset

/-- The indices of the subset are indices of the mesh. -/
def InRange (s : MeshSubset) (m : Mesh) : Prop :=
  s.vertices.Below m.nVertices ∧ s.edges.Below m.nEdges ∧ s.faces.Below m.nFaces

instance (s : MeshSubset) (m : Mesh) : Decidable (s.InRange m) := by
  unfold InRange; infer_instance

end MeshSubset

/-! ## The class -/

/-- The members of the class that the operators read: the mesh and the two
adjacency matrices. -/
structure SimplicialComplexOperators where
  /-- The member `mesh`. -/
  mesh : Mesh
  /-- The member `A0`, the vertex-edge adjacency matrix. -/
  A0 : SparseMatrix
  /-- The member `A1`, the face-edge adjacency matrix. -/
  A1 : SparseMatrix

namespace SimplicialComplexOperators

/-- The function `buildVertexEdgeAdjacencyMatrix`: `rows` and `cols` are the
edge and vertex counts converted to `int`; the loop over the edges converts
the index of the edge and of its two endpoints to `int` and stores a one at
both endpoints. -/
def buildVertexEdgeAdjacencyMatrix (self : SimplicialComplexOperators) :
    Option SparseMatrix :=
  (SparseMatrix.create (toInt self.mesh.nEdges) (toInt self.mesh.nVertices)).bind
    (fun vertexEdgeMatrix =>
      (List.range self.mesh.nEdges).foldlM
        (fun vertexEdgeMatrix edge =>
          (vertexEdgeMatrix.insertAt (toInt edge)
              (toInt (self.mesh.firstVertex edge)) 1).bind
            (fun m => m.insertAt (toInt edge) (toInt (self.mesh.secondVertex edge)) 1))
        vertexEdgeMatrix)

/-- The function `buildFaceEdgeAdjacencyMatrix`: `rows` and `cols` are the
face and edge counts converted to `int`; the loops convert the index of the
face and of each of its incident edges to `int` and store a one there. -/
def buildFaceEdgeAdjacencyMatrix (self : SimplicialComplexOperators) :
    Option SparseMatrix :=
  (SparseMatrix.create (toInt self.mesh.nFaces) (toInt self.mesh.nEdges)).bind
    (fun edgeFaceMatrix =>
      (List.range self.mesh.nFaces).foldlM
        (fun edgeFaceMatrix face =>
          (self.mesh.adjacentEdges face).foldlM
            (fun m edge => m.insertAt (toInt face) (toInt edge) 1) edgeFaceMatrix)
        edgeFaceMatrix)

/-- The mesh counts fit in an `int`, so that the conversions in the build
functions change nothing, and the members `A0` and `A1` hold what the two
build functions return. -/
def Built (self : SimplicialComplexOperators) : Prop :=
  self.mesh.FitsInt ∧
  self.buildVertexEdgeAdjacencyMatrix = some self.A0 ∧
  self.buildFaceEdgeAdjacencyMatrix = some self.A1

instance (self : SimplicialComplexOperators) : Decidable self.Built := by
  unfold Built; infer_instance

/-- The shapes of `A0` and `A1` are the ones the build functions give them. -/
def ShapesMatch (self : SimplicialComplexOperators) : Prop :=
  self.A0.rows = self.mesh.nEdges ∧ self.A0.cols = self.mesh.nVertices ∧
  self.A1.rows = self.mesh.nFaces ∧ self.A1.cols = self.mesh.nEdges

instance (self : SimplicialComplexOperators) : Decidable self.ShapesMatch := by
  unfold ShapesMatch; infer_instance

/-- The function `buildVertexVector`: entry `i` is one when
`subset.vertices.count(i)` is nonzero. -/
def buildVertexVector (self : SimplicialComplexOperators) (subset : MeshSubset) :
    List Nat :=
  (List.range self.mesh.nVertices).map
    (fun i => if subset.vertices.count i ≠ 0 then 1 else 0)

/-- The function `buildEdgeVector`: entry `i` is one when
`subset.edges.count(i)` is nonzero. -/
def buildEdgeVector (self : SimplicialComplexOperators) (subset : MeshSubset) :
    List Nat :=
  (List.range self.mesh.nEdges).map
    (fun i => if subset.edges.count i ≠ 0 then 1 else 0)

/-- The function `buildFaceVector`: entry `i` is one when
`subset.edges.count(i)` is nonzero, as the source tests it. -/
def buildFaceVector (self : SimplicialComplexOperators) (subset : MeshSubset) :
    List Nat :=
  (List.range self.mesh.nFaces).map
    (fun i => if subset.edges.count i ≠ 0 then 1 else 0)

/-- The function `star`: a copy of the subset; for every vertex of the subset
the loop over the edge indices adds the edges with a nonzero `A0` entry; then
for every edge of the result the loop over the face indices adds the faces
with a nonzero `A1` entry.  The locals `cols` and `rows` of the source are
never read and are left out. -/
def star (self : SimplicialComplexOperators) (subset : MeshSubset) :
    Option MeshSubset :=
  (subset.vertices.elems.foldlM
      (fun starSet vertex =>
        (List.range self.mesh.nEdges).foldlM
          (fun starSet e =>
            (self.A0.coeff e vertex).bind
              (fun c => some (if c ≠ 0 then starSet.addEdge e else starSet)))
          starSet)
      subset).bind
    (fun starSet =>
      starSet.edges.elems.foldlM
        (fun starSet edge =>
          (List.range self.mesh.nFaces).foldlM
            (fun starSet f =>
              (self.A1.coeff f edge).bind
                (fun c => some (if c ≠ 0 then starSet.addFace f else starSet)))
            starSet)
        starSet)

/-- The function `closure`: a copy of the subset; for every face of the subset
the loop over the edge indices adds the edges with a nonzero `A1` entry; then
for every edge of the result the loop over the vertex indices adds the
vertices with a nonzero `A0` entry. -/
def closure (self : SimplicialComplexOperators) (subset : MeshSubset) :
    Option MeshSubset :=
  (subset.faces.elems.foldlM
      (fun closureSet face =>
        (List.range self.mesh.nEdges).foldlM
          (fun closureSet i =>
            (self.A1.coeff face i).bind
              (fun c => some (if c ≠ 0 then closureSet.addEdge i else closureSet)))
          closureSet)
      subset).bind
    (fun closureSet =>
      closureSet.edges.elems.foldlM
        (fun closureSet edge =>
          (List.range self.mesh.nVertices).foldlM
            (fun closureSet i =>
              (self.A0.coeff edge i).bind
                (fun c => some (if c ≠ 0 then closureSet.addVertex i else closureSet)))
            closureSet)
        closureSet)

/-- The function `link`: the source returns the subset it is given. -/
def link (_self : SimplicialComplexOperators) (subset : MeshSubset) : MeshSubset :=
  subset

/-- The function `isComplex`: the source returns `false`. -/
def isComplex (_self : SimplicialComplexOperators) (_subset : MeshSubset) : Bool :=
  false

/-- The function `isPureComplex`: the source returns `-1`. -/
def isPureComplex (_self : SimplicialComplexOperators) (_subset : MeshSubset) : Int :=
  -1

/-- The function `boundary`: the source returns the subset it is given. -/
def boundary (_self : SimplicialComplexOperators) (subset : MeshSubset) : MeshSubset :=
  subset

end SimplicialComplexOperators

/-! ## Two meshes -/

/-- The mesh of one triangle: vertices 0, 1, 2, edges 0 = (0,1), 1 = (1,2),
2 = (2,0), and face 0 with the three edges. -/
def triangleMesh : Mesh where
  nVertices := 3
  nEdges := 3
  nFaces := 1
  firstVertex := fun e => e
  secondVertex := fun e => (e + 1) % 3
  adjacentEdges := fun _ => [0, 1, 2]

/-- The class on the one-triangle mesh, with the two matrices written out. -/
def triangleOps : SimplicialComplexOperators where
  mesh := triangleMesh
  A0 := ⟨3, 3, [(2, 0, 1), (2, 2, 1), (1, 2, 1), (1, 1, 1), (0, 1, 1), (0, 0, 1)]⟩
  A1 := ⟨1, 3, [(0, 2, 1), (0, 1, 1), (0, 0, 1)]⟩

/-- The mesh of two triangles with a common edge: vertices 0 to 3, edges
0 = (0,1), 1 = (1,2), 2 = (2,0), 3 = (1,3), 4 = (3,2), face 0 with edges 0, 1, 2
and face 1 with edges 3, 4, 1. -/
def twoTriangleMesh : Mesh where
  nVertices := 4
  nEdges := 5
  nFaces := 2
  firstVertex := fun e => [0, 1, 2, 1, 3].getD e 0
  secondVertex := fun e => [1, 2, 0, 3, 2].getD e 0
  adjacentEdges := fun f => [[0, 1, 2], [3, 4, 1]].getD f []

/-- The class on the two-triangle mesh, with the two matrices written out. -/
def twoTriangleOps : SimplicialComplexOperators where
  mesh := twoTriangleMesh
  A0 := ⟨5, 4, [(4, 2, 1), (4, 3, 1), (3, 3, 1), (3, 1, 1), (2, 0, 1), (2, 2, 1),
    (1, 2, 1), (1, 1, 1), (0, 1, 1), (0, 0, 1)]⟩
  A1 := ⟨2, 5, [(1, 1, 1), (1, 4, 1), (1, 3, 1), (0, 2, 1), (0, 1, 1), (0, 0, 1)]⟩

/-- The filled triangle of the one-triangle mesh: face 0 with its three edges
and three vertices. -/
def filledTriangle : MeshSubset := MeshSubset.ofLists [0, 1, 2] [0, 1, 2] [0]

/-- The subset holding vertex 0 alone. -/
def vertexZero : MeshSubset := MeshSubset.ofLists [0] [] []

/-- The subset holding face 0 alone. -/
def faceZero : MeshSubset := MeshSubset.ofLists [] [] [0]

/-- The two filled triangles of the two-triangle mesh: both faces with their
five edges and four vertices; edge 1 is the common edge. -/
def filledTwoTriangles : MeshSubset :=
  MeshSubset.ofLists [0, 1, 2, 3] [0, 1, 2, 3, 4] [0, 1]

/-! ## Sizes, unions, inclusion and row counts -/

/-- The number of elements of a set, `size()` of `std::set`. -/
def IndexSet.size (s : IndexSet) : Nat := s.elems.length

/-- The union of two sets: the elements of the second inserted into the
first. -/
def IndexSet.union (s t : IndexSet) : IndexSet := t.elems.foldl IndexSet.insert s

/-- Every element of the first set is in the second. -/
def IndexSet.Subset (s t : IndexSet) : Prop := ∀ x ∈ s, x ∈ t

instance (s t : IndexSet) : Decidable (s.Subset t) :=
  inferInstanceAs (Decidable (∀ x ∈ s.elems, x ∈ t))

/-- Component-wise union of two subsets. -/
def MeshSubset.union (s t : MeshSubset) : MeshSubset :=
  ⟨s.vertices.union t.vertices, s.edges.union t.edges, s.faces.union t.faces⟩

/-- Component-wise inclusion of two subsets. -/
def MeshSubset.Subset (s t : MeshSubset) : Prop :=
  s.vertices.Subset t.vertices ∧ s.edges.Subset t.edges ∧ s.faces.Subset t.faces

instance (s t : MeshSubset) : Decidable (s.Subset t) := by
  unfold MeshSubset.Subset; infer_instance

/-- The endpoints of every edge are vertex indices: the part of `ValidIndices`
on the edges. -/
def Mesh.ValidEdges (m : Mesh) : Prop :=
  ∀ e < m.nEdges, m.firstVertex e < m.nVertices ∧ m.secondVertex e < m.nVertices

instance (m : Mesh) : Decidable m.ValidEdges := by
  unfold Mesh.ValidEdges; infer_instance

/-- The two endpoints of every edge are different vertices. -/
def Mesh.DistinctEndpoints (m : Mesh) : Prop :=
  ∀ e < m.nEdges, m.firstVertex e ≠ m.secondVertex e

instance (m : Mesh) : Decidable m.DistinctEndpoints := by
  unfold Mesh.DistinctEndpoints; infer_instance

/-- No face lists an incident edge twice. -/
def Mesh.DistinctFaceEdges (m : Mesh) : Prop :=
  ∀ f < m.nFaces, (m.adjacentEdges f).Nodup

instance (m : Mesh) : Decidable m.DistinctFaceEdges := by
  unfold Mesh.DistinctFaceEdges; infer_instance

/-- The number of nonzero entries in a row of a matrix: the columns at which
`coeff` is nonzero. -/
def SparseMatrix.rowNonZeros (m : SparseMatrix) (i : Nat) : Nat :=
  ((List.range m.cols).filter (fun j => decide ((m.coeff i j).getD 0 ≠ 0))).length

/-! ## Meshes with a count that does not fit in an `int` -/

/-- A mesh with `2^32 + 3` vertices and one edge, from vertex 0 to vertex 1. -/
def wideVertexMesh : Mesh where
  nVertices := 4294967299
  nEdges := 1
  nFaces := 0
  firstVertex := fun _ => 0
  secondVertex := fun _ => 1
  adjacentEdges := fun _ => []

/-- The class on `wideVertexMesh`; the build functions do not read the two
members `A0` and `A1`. -/
def wideVertexOps : SimplicialComplexOperators where
  mesh := wideVertexMesh
  A0 := ⟨1, 3, [(0, 1, 1), (0, 0, 1)]⟩
  A1 := ⟨0, 1, []⟩

/-- A mesh with 2 vertices, `2^32 + 3` edges, each from vertex 0 to vertex 1,
and one face with the edges 0, 1, 2. -/
def wideEdgeMesh : Mesh where
  nVertices := 2
  nEdges := 4294967299
  nFaces := 1
  firstVertex := fun _ => 0
  secondVertex := fun _ => 1
  adjacentEdges := fun _ => [0, 1, 2]

/-- The class on `wideEdgeMesh`; the build functions do not read the two
members `A0` and `A1`. -/
def wideEdgeOps : SimplicialComplexOperators where
  mesh := wideEdgeMesh
  A0 := ⟨3, 2, []⟩
  A1 := ⟨1, 3, [(0, 2, 1), (0, 1, 1), (0, 0, 1)]⟩

/-- A mesh with `2^32 + 3` vertices and one edge, from vertex 0 to vertex 5. -/
def farVertexMesh : Mesh where
  nVertices := 4294967299
  nEdges := 1
  nFaces := 0
  firstVertex := fun _ => 0
  secondVertex := fun _ => 5
  adjacentEdges := fun _ => []

/-- The class on `farVertexMesh`; the build functions do not read the two
members `A0` and `A1`. -/
def farVertexOps : SimplicialComplexOperators where
  mesh := farVertexMesh
  A0 := ⟨1, 3, []⟩
  A1 := ⟨0, 1, []⟩

/-! ## Ordered sets: membership and extensionality -/

/-- Every element of `insertAsc x l` is `x` or an element of `l`. -/
theorem mem_insertAsc (x a : Nat) (l : List Nat) :
    a ∈ insertAsc x l ↔ a = x ∨ a ∈ l := by
  induction l with
  | nil => simp [insertAsc]
  | cons y ys ih =>
    unfold insertAsc
    split_ifs with h1 h2
    · simp
    · subst h2; simp
    · simp only [List.mem_cons, ih]; tauto

namespace IndexSet

theorem mem_def (s : IndexSet) (a : Nat) : a ∈ s ↔ a ∈ s.elems := Iff.rfl

/-- Two sets with the same members are equal. -/
theorem eq_of_mem_iff {s t : IndexSet} (h : ∀ a, a ∈ s ↔ a ∈ t) : s = t := by
  cases s with
  | mk l hl =>
    cases t with
    | mk r hr =>
      have hp : l.Perm r := (List.perm_ext_iff_of_nodup hl.nodup hr.nodup).mpr h
      have : l = r := List.eq_of_perm_of_sorted hp hl hr
      subst this; rfl

theorem mem_insert (s : IndexSet) (x a : Nat) : a ∈ s.insert x ↔ a = x ∨ a ∈ s :=
  mem_insertAsc x a s.elems

theorem not_mem_empty (a : Nat) : a ∉ empty := by
  simp [mem_def, empty]

/-- Inserting a list of indices one after the other adds exactly them. -/
theorem mem_foldl_insert (l : List Nat) (s : IndexSet) (a : Nat) :
    a ∈ l.foldl insert s ↔ a ∈ s ∨ a ∈ l := by
  induction l generalizing s with
  | nil => simp
  | cons x xs ih =>
    simp only [List.foldl_cons, ih, mem_insert, List.mem_cons]; tauto

theorem mem_ofList (l : List Nat) (a : Nat) : a ∈ ofList l ↔ a ∈ l := by
  simp [ofList, mem_foldl_insert, not_mem_empty]

theorem mem_diff (s t : IndexSet) (a : Nat) : a ∈ s.diff t ↔ a ∈ s ∧ a ∉ t := by
  simp [diff, mem_def]

end IndexSet

namespace MeshSubset

/-- Two subsets with the same vertices, edges and faces are equal. -/
theorem eq_of_components {s t : MeshSubset} (hv : ∀ a, a ∈ s.vertices ↔ a ∈ t.vertices)
    (he : ∀ a, a ∈ s.edges ↔ a ∈ t.edges) (hf : ∀ a, a ∈ s.faces ↔ a ∈ t.faces) :
    s = t := by
  cases s; cases t
  simp only [mk.injEq]
  exact ⟨IndexSet.eq_of_mem_iff hv, IndexSet.eq_of_mem_iff he, IndexSet.eq_of_mem_iff hf⟩

theorem foldl_addEdge (l : List Nat) (s : MeshSubset) :
    l.foldl addEdge s = { s with edges := l.foldl IndexSet.insert s.edges } := by
  induction l generalizing s with
  | nil => rfl
  | cons x xs ih => simp only [List.foldl_cons, ih]; rfl

theorem foldl_addVertex (l : List Nat) (s : MeshSubset) :
    l.foldl addVertex s = { s with vertices := l.foldl IndexSet.insert s.vertices } := by
  induction l generalizing s with
  | nil => rfl
  | cons x xs ih => simp only [List.foldl_cons, ih]; rfl

theorem foldl_addFace (l : List Nat) (s : MeshSubset) :
    l.foldl addFace s = { s with faces := l.foldl IndexSet.insert s.faces } := by
  induction l generalizing s with
  | nil => rfl
  | cons x xs ih => simp only [List.foldl_cons, ih]; rfl

end MeshSubset

/-! ## The two nested loops of `star` and `closure` -/

/-- The inner loop: when every lookup is inside the matrix, the loop adds the
indices with a nonzero entry, in order. -/
theorem innerLoop_eq_some {β : Type} (add : β → Nat → β) (look : Nat → Option Nat)
    (l : List Nat) (b : β) (h : ∀ i ∈ l, (look i).isSome) :
    l.foldlM (fun acc i => (look i).bind
        (fun c => some (if c ≠ 0 then add acc i else acc))) b =
      some ((l.filter (fun i => decide ((look i).getD 0 ≠ 0))).foldl add b) := by
  induction l generalizing b with
  | nil => rfl
  | cons x xs ih =>
    have hx : (look x).isSome := h x (List.mem_cons_self _ _)
    obtain ⟨c, hc⟩ := Option.isSome_iff_exists.mp hx
    have hxs : ∀ i ∈ xs, (look i).isSome := fun i hi => h i (List.mem_cons_of_mem _ hi)
    simp only [List.foldlM_cons, hc, Option.some_bind, Option.bind_eq_bind,
      List.filter_cons, Option.getD_some]
    by_cases hz : c = 0
    · subst hz; simpa using ih b hxs
    · simpa [hz] using ih (add b x) hxs

/-- The nested loops: when every lookup is inside the matrix, they add, for
every outer element in order, the inner indices with a nonzero entry. -/
theorem nestedLoop_eq_some {β : Type} (add : β → Nat → β) (look : Nat → Nat → Option Nat)
    (outer : List Nat) (n : Nat) (b : β)
    (h : ∀ o ∈ outer, ∀ i < n, (look o i).isSome) :
    outer.foldlM (fun acc o => (List.range n).foldlM (fun acc i => (look o i).bind
        (fun c => some (if c ≠ 0 then add acc i else acc))) acc) b =
      some ((outer.flatMap (fun o =>
        (List.range n).filter (fun i => decide ((look o i).getD 0 ≠ 0)))).foldl add b) := by
  induction outer generalizing b with
  | nil => rfl
  | cons x xs ih =>
    have hx : ∀ i ∈ List.range n, (look x i).isSome :=
      fun i hi => h x (List.mem_cons_self _ _) i (List.mem_range.mp hi)
    have hxs : ∀ o ∈ xs, ∀ i < n, (look o i).isSome :=
      fun o ho => h o (List.mem_cons_of_mem _ ho)
    simp only [List.foldlM_cons, innerLoop_eq_some add (look x) _ b hx,
      Option.bind_eq_bind, Option.some_bind, List.flatMap_cons, List.foldl_append]
    exact ih _ hxs

/-- Membership in the list of indices the nested loops add. -/
theorem mem_nestedIndices (look : Nat → Nat → Option Nat) (outer : List Nat) (n x : Nat) :
    x ∈ outer.flatMap (fun o =>
        (List.range n).filter (fun i => decide ((look o i).getD 0 ≠ 0))) ↔
      ∃ o ∈ outer, x < n ∧ (look o x).getD 0 ≠ 0 := by
  simp [List.mem_flatMap, List.mem_filter]

/-! ## Lookups in a sparse matrix -/

theorem getD_ne_zero_iff (o : Option Nat) : o.getD 0 ≠ 0 ↔ ∃ c, o = some c ∧ c ≠ 0 := by
  cases o <;> simp

namespace SparseMatrix

theorem coeff_isSome (m : SparseMatrix) {i j : Nat} (hi : i < m.rows) (hj : j < m.cols) :
    (m.coeff i j).isSome := by
  simp [coeff, hi, hj]

theorem coeff_eq_some (m : SparseMatrix) {i j c : Nat} (h : m.coeff i j = some c) :
    i < m.rows ∧ j < m.cols ∧ c = (m.stored i j).getD 0 := by
  unfold coeff at h
  split_ifs at h with hb
  exact ⟨hb.1, hb.2, (Option.some.inj h).symm⟩

/-- In a matrix whose stored values are all one, an entry is zero or one. -/
theorem coeff_zero_or_one (m : SparseMatrix) (hm : ∀ t ∈ m.entries, t.2.2 = 1)
    {i j c : Nat} (h : m.coeff i j = some c) : c = 0 ∨ c = 1 := by
  obtain ⟨_, _, hc⟩ := m.coeff_eq_some h
  subst hc
  unfold stored
  cases hf : m.entries.find? (fun t => decide (t.1 = i ∧ t.2.1 = j)) with
  | none => simp
  | some t => right; simpa using hm t (List.mem_of_find?_eq_some hf)

/-- In a matrix whose stored values are all one, an entry is nonzero exactly
when it is one. -/
theorem coeff_nonzero_iff_one (m : SparseMatrix) (hm : ∀ t ∈ m.entries, t.2.2 = 1)
    (i j : Nat) : (∃ c, m.coeff i j = some c ∧ c ≠ 0) ↔ m.coeff i j = some 1 := by
  constructor
  · rintro ⟨c, hc, hne⟩
    rcases m.coeff_zero_or_one hm hc with h | h
    · exact absurd h hne
    · rw [hc, h]
  · intro h; exact ⟨1, h, one_ne_zero⟩

/-- What a successful `insert` requires and returns. -/
theorem insert_eq_some (m m' : SparseMatrix) {i j v : Nat} (h : m.insert i j v = some m') :
    i < m.rows ∧ j < m.cols ∧ m.stored i j = none ∧
      m' = { m with entries := (i, j, v) :: m.entries } := by
  unfold insert at h
  split_ifs at h with hb
  exact ⟨hb.1, hb.2.1, hb.2.2, (Option.some.inj h).symm⟩

/-- What a successful `insert` with `int` indices requires. -/
theorem insertAt_eq_some (m m' : SparseMatrix) {i j : Int} {v : Nat}
    (h : m.insertAt i j v = some m') :
    0 ≤ i ∧ 0 ≤ j ∧ m.insert i.toNat j.toNat v = some m' := by
  unfold insertAt at h
  split_ifs at h with hb
  exact ⟨hb.1, hb.2, h⟩

end SparseMatrix

/-- The conversion to `int` keeps a value below `2^31`. -/
theorem toInt_of_lt {n : Nat} (h : n < 2147483648) : toInt n = (n : Int) := by
  unfold toInt
  simp only [Int.ofNat_eq_coe]
  omega

/-- With sizes below `2^31` the constructor gets the sizes unchanged. -/
theorem SparseMatrix.create_toInt {r c : Nat} (hr : r < 2147483648) (hc : c < 2147483648) :
    SparseMatrix.create (toInt r) (toInt c) = some (SparseMatrix.zero r c) := by
  rw [toInt_of_lt hr, toInt_of_lt hc]
  simp [SparseMatrix.create]

/-- With indices below `2^31` the `insert` gets the indices unchanged. -/
theorem SparseMatrix.insertAt_toInt (m : SparseMatrix) {i j : Nat} (v : Nat)
    (hi : i < 2147483648) (hj : j < 2147483648) :
    m.insertAt (toInt i) (toInt j) v = m.insert i j v := by
  rw [toInt_of_lt hi, toInt_of_lt hj]
  simp [SparseMatrix.insertAt]

/-- A property that every successful step of a loop keeps holds at the end of
the loop. -/
theorem foldlM_option_invariant {α β : Type} (P : β → Prop) (f : β → α → Option β)
    (l : List α) (b r : β) (hb : P b)
    (hstep : ∀ b a b', a ∈ l → P b → f b a = some b' → P b')
    (h : l.foldlM f b = some r) : P r := by
  induction l generalizing b with
  | nil => simp only [List.foldlM_nil] at h; cases h; exact hb
  | cons x xs ih =>
    simp only [List.foldlM_cons, Option.bind_eq_bind] at h
    cases hfx : f b x with
    | none => simp [hfx] at h
    | some b' =>
      rw [hfx, Option.some_bind] at h
      exact ih b' (hstep b x b' (List.mem_cons_self _ _) hb hfx)
        (fun b a c ha => hstep b a c (List.mem_cons_of_mem _ ha)) h

namespace SimplicialComplexOperators

/-- The shape and the values of a matrix that `buildVertexEdgeAdjacencyMatrix`
returns when the edge and vertex counts fit in an `int`. -/
theorem buildVertexEdgeAdjacencyMatrix_shape (self : SimplicialComplexOperators)
    (hE : self.mesh.nEdges < 2147483648) (hV : self.mesh.nVertices < 2147483648)
    (A : SparseMatrix) (h : self.buildVertexEdgeAdjacencyMatrix = some A) :
    A.rows = self.mesh.nEdges ∧ A.cols = self.mesh.nVertices ∧
      ∀ t ∈ A.entries, t.2.2 = 1 := by
  unfold buildVertexEdgeAdjacencyMatrix at h
  rw [SparseMatrix.create_toInt hE hV, Option.some_bind] at h
  refine foldlM_option_invariant
    (fun A => A.rows = self.mesh.nEdges ∧ A.cols = self.mesh.nVertices ∧
      ∀ t ∈ A.entries, t.2.2 = 1) _ _ _ A ?_ ?_ h
  · simp [SparseMatrix.zero]
  · intro b a b' _ hP hstep
    cases h1 : b.insertAt (toInt a) (toInt (self.mesh.firstVertex a)) 1 with
    | none => simp [h1] at hstep
    | some m =>
      rw [h1, Option.some_bind] at hstep
      obtain ⟨_, _, _, e1⟩ := b.insert_eq_some m (b.insertAt_eq_some m h1).2.2
      obtain ⟨_, _, _, e2⟩ := m.insert_eq_some b' (m.insertAt_eq_some b' hstep).2.2
      subst e1; subst e2
      obtain ⟨hr, hc, hv⟩ := hP
      refine ⟨hr, hc, ?_⟩
      intro t ht
      simp only [List.mem_cons] at ht
      rcases ht with ht | ht | ht
      · rw [ht]
      · rw [ht]
      · exact hv t ht

/-- The shape and the values of a matrix that `buildFaceEdgeAdjacencyMatrix`
returns when the face and edge counts fit in an `int`. -/
theorem buildFaceEdgeAdjacencyMatrix_shape (self : SimplicialComplexOperators)
    (hF : self.mesh.nFaces < 2147483648) (hE : self.mesh.nEdges < 2147483648)
    (A : SparseMatrix) (h : self.buildFaceEdgeAdjacencyMatrix = some A) :
    A.rows = self.mesh.nFaces ∧ A.cols = self.mesh.nEdges ∧
      ∀ t ∈ A.entries, t.2.2 = 1 := by
  unfold buildFaceEdgeAdjacencyMatrix at h
  rw [SparseMatrix.create_toInt hF hE, Option.some_bind] at h
  refine foldlM_option_invariant
    (fun A => A.rows = self.mesh.nFaces ∧ A.cols = self.mesh.nEdges ∧
      ∀ t ∈ A.entries, t.2.2 = 1) _ _ _ A ?_ ?_ h
  · simp [SparseMatrix.zero]
  · intro b a b' _ hP hstep
    refine foldlM_option_invariant
      (fun A => A.rows = self.mesh.nFaces ∧ A.cols = self.mesh.nEdges ∧
        ∀ t ∈ A.entries, t.2.2 = 1) _ _ _ b' hP ?_ hstep
    intro m e m' _ hm hins
    obtain ⟨_, _, _, e1⟩ := m.insert_eq_some m' (m.insertAt_eq_some m' hins).2.2
    subst e1
    obtain ⟨hr, hc, hv⟩ := hm
    refine ⟨hr, hc, ?_⟩
    intro t ht
    simp only [List.mem_cons] at ht
    rcases ht with ht | ht
    · rw [ht]
    · exact hv t ht

/-- Matrices that the build functions returned, on a mesh whose counts fit in
an `int`, have the shapes of the mesh. -/
theorem Built.shapesMatch {self : SimplicialComplexOperators} (h : self.Built) :
    self.ShapesMatch := by
  obtain ⟨⟨hV, hE, hF⟩, h0, h1⟩ := h
  obtain ⟨r0, c0, _⟩ := self.buildVertexEdgeAdjacencyMatrix_shape hE hV _ h0
  obtain ⟨r1, c1, _⟩ := self.buildFaceEdgeAdjacencyMatrix_shape hF hE _ h1
  exact ⟨r0, c0, r1, c1⟩

/-- The stored values of built matrices are all one. -/
theorem Built.values {self : SimplicialComplexOperators} (h : self.Built) :
    (∀ t ∈ self.A0.entries, t.2.2 = 1) ∧ (∀ t ∈ self.A1.entries, t.2.2 = 1) := by
  obtain ⟨⟨hV, hE, hF⟩, h0, h1⟩ := h
  exact ⟨(self.buildVertexEdgeAdjacencyMatrix_shape hE hV _ h0).2.2,
    (self.buildFaceEdgeAdjacencyMatrix_shape hF hE _ h1).2.2⟩

end SimplicialComplexOperators

/-! ## What `closure` and `star` return -/

namespace SimplicialComplexOperators

/-- With matrices of the right shapes and a subset in range, `closure` returns
a subset: the faces are unchanged, the edges are the given ones and those with
a nonzero `A1` entry in the row of a given face, the vertices are the given
ones and those with a nonzero `A0` entry in the row of an edge of the result. -/
theorem closure_char (self : SimplicialComplexOperators) (S : MeshSubset)
    (hA : self.ShapesMatch) (hS : S.InRange self.mesh) :
    ∃ T, self.closure S = some T ∧ T.faces = S.faces ∧
      (∀ e, e ∈ T.edges ↔
        e ∈ S.edges ∨ ∃ f ∈ S.faces, ∃ c, self.A1.coeff f e = some c ∧ c ≠ 0) ∧
      (∀ v, v ∈ T.vertices ↔
        v ∈ S.vertices ∨ ∃ e ∈ T.edges, ∃ c, self.A0.coeff e v = some c ∧ c ≠ 0) ∧
      T.InRange self.mesh := by
  obtain ⟨r0, c0, r1, c1⟩ := hA
  obtain ⟨hSv, hSe, hSf⟩ := hS
  -- the first pair of loops
  have look1 : ∀ o ∈ S.faces.elems, ∀ i < self.mesh.nEdges, (self.A1.coeff o i).isSome :=
    fun o ho i hi => self.A1.coeff_isSome (r1 ▸ hSf o ho) (c1 ▸ hi)
  have h1 := nestedLoop_eq_some MeshSubset.addEdge (fun o i => self.A1.coeff o i) _ _ S look1
  have m1 := mem_nestedIndices (fun o i => self.A1.coeff o i) S.faces.elems self.mesh.nEdges
  generalize S.faces.elems.flatMap (fun o => (List.range self.mesh.nEdges).filter
    (fun i => decide ((self.A1.coeff o i).getD 0 ≠ 0))) = idx1 at h1 m1
  rw [MeshSubset.foldl_addEdge] at h1
  have hedges : ∀ e, e ∈ idx1.foldl IndexSet.insert S.edges ↔
      e ∈ S.edges ∨ ∃ f ∈ S.faces, ∃ c, self.A1.coeff f e = some c ∧ c ≠ 0 := by
    intro e
    rw [IndexSet.mem_foldl_insert, m1]
    simp only [getD_ne_zero_iff]
    constructor
    · rintro (h | ⟨f, hf, _, h⟩)
      · exact Or.inl h
      · exact Or.inr ⟨f, hf, h⟩
    · rintro (h | ⟨f, hf, c, hc, hne⟩)
      · exact Or.inl h
      · exact Or.inr ⟨f, hf, c1 ▸ (self.A1.coeff_eq_some hc).2.1, c, hc, hne⟩
  have hedgesLt : ∀ e, e ∈ idx1.foldl IndexSet.insert S.edges → e < self.mesh.nEdges := by
    intro e he
    rcases (hedges e).mp he with h | ⟨f, _, c, hc, _⟩
    · exact hSe e h
    · exact c1 ▸ (self.A1.coeff_eq_some hc).2.1
  -- the second pair of loops
  have look2 : ∀ o ∈ (idx1.foldl IndexSet.insert S.edges).elems,
      ∀ i < self.mesh.nVertices, (self.A0.coeff o i).isSome :=
    fun o ho i hi => self.A0.coeff_isSome (r0 ▸ hedgesLt o ho) (c0 ▸ hi)
  have h2 := nestedLoop_eq_some MeshSubset.addVertex (fun o i => self.A0.coeff o i) _ _
    { S with edges := idx1.foldl IndexSet.insert S.edges } look2
  have m2 := mem_nestedIndices (fun o i => self.A0.coeff o i)
    (idx1.foldl IndexSet.insert S.edges).elems self.mesh.nVertices
  generalize (idx1.foldl IndexSet.insert S.edges).elems.flatMap
    (fun o => (List.range self.mesh.nVertices).filter
      (fun i => decide ((self.A0.coeff o i).getD 0 ≠ 0))) = idx2 at h2 m2
  rw [MeshSubset.foldl_addVertex] at h2
  have hverts : ∀ v, v ∈ idx2.foldl IndexSet.insert S.vertices ↔
      v ∈ S.vertices ∨ ∃ e ∈ idx1.foldl IndexSet.insert S.edges,
        ∃ c, self.A0.coeff e v = some c ∧ c ≠ 0 := by
    intro v
    rw [IndexSet.mem_foldl_insert, m2]
    simp only [getD_ne_zero_iff]
    constructor
    · rintro (h | ⟨e, he, _, h⟩)
      · exact Or.inl h
      · exact Or.inr ⟨e, he, h⟩
    · rintro (h | ⟨e, he, c, hc, hne⟩)
      · exact Or.inl h
      · exact Or.inr ⟨e, he, c0 ▸ (self.A0.coeff_eq_some hc).2.1, c, hc, hne⟩
  refine ⟨⟨idx2.foldl IndexSet.insert S.vertices, idx1.foldl IndexSet.insert S.edges,
    S.faces⟩, ?_, rfl, hedges, hverts, ?_, hedgesLt, hSf⟩
  · unfold closure
    rw [h1, Option.some_bind]
    exact h2
  · intro v hv
    rcases (hverts v).mp hv with h | ⟨_, _, c, hc, _⟩
    · exact hSv v h
    · exact c0 ▸ (self.A0.coeff_eq_some hc).2.1

/-- With matrices of the right shapes and a subset in range, `star` returns a
subset: the vertices are unchanged, the edges are the given ones and those with
a nonzero `A0` entry in the column of a given vertex, the faces are the given
ones and those with a nonzero `A1` entry in the column of an edge of the
result. -/
theorem star_char (self : SimplicialComplexOperators) (S : MeshSubset)
    (hA : self.ShapesMatch) (hS : S.InRange self.mesh) :
    ∃ T, self.star S = some T ∧ T.vertices = S.vertices ∧
      (∀ e, e ∈ T.edges ↔
        e ∈ S.edges ∨ ∃ v ∈ S.vertices, ∃ c, self.A0.coeff e v = some c ∧ c ≠ 0) ∧
      (∀ f, f ∈ T.faces ↔
        f ∈ S.faces ∨ ∃ e ∈ T.edges, ∃ c, self.A1.coeff f e = some c ∧ c ≠ 0) ∧
      T.InRange self.mesh := by
  obtain ⟨r0, c0, r1, c1⟩ := hA
  obtain ⟨hSv, hSe, hSf⟩ := hS
  -- the first pair of loops
  have look1 : ∀ o ∈ S.vertices.elems, ∀ i < self.mesh.nEdges,
      (self.A0.coeff i o).isSome :=
    fun o ho i hi => self.A0.coeff_isSome (r0 ▸ hi) (c0 ▸ hSv o ho)
  have h1 := nestedLoop_eq_some MeshSubset.addEdge (fun o i => self.A0.coeff i o) _ _ S look1
  have m1 := mem_nestedIndices (fun o i => self.A0.coeff i o) S.vertices.elems
    self.mesh.nEdges
  generalize S.vertices.elems.flatMap (fun o => (List.range self.mesh.nEdges).filter
    (fun i => decide ((self.A0.coeff i o).getD 0 ≠ 0))) = idx1 at h1 m1
  rw [MeshSubset.foldl_addEdge] at h1
  have hedges : ∀ e, e ∈ idx1.foldl IndexSet.insert S.edges ↔
      e ∈ S.edges ∨ ∃ v ∈ S.vertices, ∃ c, self.A0.coeff e v = some c ∧ c ≠ 0 := by
    intro e
    rw [IndexSet.mem_foldl_insert, m1]
    simp only [getD_ne_zero_iff]
    constructor
    · rintro (h | ⟨v, hv, _, h⟩)
      · exact Or.inl h
      · exact Or.inr ⟨v, hv, h⟩
    · rintro (h | ⟨v, hv, c, hc, hne⟩)
      · exact Or.inl h
      · exact Or.inr ⟨v, hv, r0 ▸ (self.A0.coeff_eq_some hc).1, c, hc, hne⟩
  have hedgesLt : ∀ e, e ∈ idx1.foldl IndexSet.insert S.edges → e < self.mesh.nEdges := by
    intro e he
    rcases (hedges e).mp he with h | ⟨v, _, c, hc, _⟩
    · exact hSe e h
    · exact r0 ▸ (self.A0.coeff_eq_some hc).1
  -- the second pair of loops
  have look2 : ∀ o ∈ (idx1.foldl IndexSet.insert S.edges).elems,
      ∀ i < self.mesh.nFaces, (self.A1.coeff i o).isSome :=
    fun o ho i hi => self.A1.coeff_isSome (r1 ▸ hi) (c1 ▸ hedgesLt o ho)
  have h2 := nestedLoop_eq_some MeshSubset.addFace (fun o i => self.A1.coeff i o) _ _
    { S with edges := idx1.foldl IndexSet.insert S.edges } look2
  have m2 := mem_nestedIndices (fun o i => self.A1.coeff i o)
    (idx1.foldl IndexSet.insert S.edges).elems self.mesh.nFaces
  generalize (idx1.foldl IndexSet.insert S.edges).elems.flatMap
    (fun o => (List.range self.mesh.nFaces).filter
      (fun i => decide ((self.A1.coeff i o).getD 0 ≠ 0))) = idx2 at h2 m2
  rw [MeshSubset.foldl_addFace] at h2
  have hfaces : ∀ f, f ∈ idx2.foldl IndexSet.insert S.faces ↔
      f ∈ S.faces ∨ ∃ e ∈ idx1.foldl IndexSet.insert S.edges,
        ∃ c, self.A1.coeff f e = some c ∧ c ≠ 0 := by
    intro f
    rw [IndexSet.mem_foldl_insert, m2]
    simp only [getD_ne_zero_iff]
    constructor
    · rintro (h | ⟨e, he, _, h⟩)
      · exact Or.inl h
      · exact Or.inr ⟨e, he, h⟩
    · rintro (h | ⟨e, he, c, hc, hne⟩)
      · exact Or.inl h
      · exact Or.inr ⟨e, he, r1 ▸ (self.A1.coeff_eq_some hc).1, c, hc, hne⟩
  refine ⟨⟨S.vertices, idx1.foldl IndexSet.insert S.edges,
    idx2.foldl IndexSet.insert S.faces⟩, ?_, rfl, hedges, hfaces, hSv, hedgesLt, ?_⟩
  · unfold star
    rw [h1, Option.some_bind]
    exact h2
  · intro f hf
    rcases (hfaces f).mp hf with h | ⟨_, _, c, hc, _⟩
    · exact hSf f h
    · exact r1 ▸ (self.A1.coeff_eq_some hc).1

end SimplicialComplexOperators

/-! ## The claims on `closure` and `star` -/

/-- C4.  On the one-triangle mesh the closure of face 0 is the filled triangle,
a simplicial complex, and `isComplex` returns `false` on it. -/
theorem isComplex_closure_faceZero :
    triangleOps.Built ∧ faceZero.InRange triangleOps.mesh ∧
    triangleOps.closure faceZero = some filledTriangle ∧
    triangleOps.isComplex filledTriangle = false := by
  decide

/-- C5.  On the one-triangle mesh the filled triangle is its own closure, and
`isComplex` returns `false` on it. -/
theorem isComplex_filledTriangle :
    triangleOps.Built ∧ filledTriangle.InRange triangleOps.mesh ∧
    triangleOps.closure filledTriangle = some filledTriangle ∧
    triangleOps.isComplex filledTriangle = false := by
  decide

/-- C6.  On the one-triangle mesh, for the subset holding vertex 0, the closure
of the star minus the star of the closure holds vertices 1 and 2 and edge 1,
and `link` returns the subset holding vertex 0. -/
theorem link_vertexZero :
    triangleOps.Built ∧ vertexZero.InRange triangleOps.mesh ∧
    (∃ A B C D, triangleOps.star vertexZero = some A ∧ triangleOps.closure A = some B ∧
      triangleOps.closure vertexZero = some C ∧ triangleOps.star C = some D ∧
      B.diff D = MeshSubset.ofLists [1, 2] [1] []) ∧
    triangleOps.link vertexZero = MeshSubset.ofLists [0] [] [] := by
  refine ⟨by decide, by decide, ⟨MeshSubset.ofLists [0] [0, 2] [0], filledTriangle,
    vertexZero, MeshSubset.ofLists [0] [0, 2] [0], ?_⟩, by decide⟩
  decide

/-- C7.  On the one-triangle mesh, for the subset holding vertex 0, vertex 0 is
both in what `link` returns and in what `closure` returns. -/
theorem link_closure_share_vertex :
    triangleOps.Built ∧ vertexZero.InRange triangleOps.mesh ∧
    0 ∈ (triangleOps.link vertexZero).vertices ∧
    ∃ C, triangleOps.closure vertexZero = some C ∧ 0 ∈ C.vertices := by
  refine ⟨by decide, by decide, by decide, vertexZero, by decide, by decide⟩

/-- C8.  On the one-triangle mesh `boundary` returns the filled triangle
unchanged, face 0 included, and not its three edges and three vertices; on the
two-triangle mesh it returns the two filled triangles unchanged, the common
edge 1 and both faces included. -/
theorem boundary_filledTriangle :
    (triangleOps.boundary filledTriangle = filledTriangle ∧
      0 ∈ (triangleOps.boundary filledTriangle).faces ∧
      triangleOps.boundary filledTriangle ≠ MeshSubset.ofLists [0, 1, 2] [0, 1, 2] []) ∧
    (twoTriangleOps.closure (MeshSubset.ofLists [] [] [0, 1]) = some filledTwoTriangles ∧
      twoTriangleOps.boundary filledTwoTriangles = filledTwoTriangles ∧
      1 ∈ (twoTriangleOps.boundary filledTwoTriangles).edges ∧
      0 ∈ (twoTriangleOps.boundary filledTwoTriangles).faces) := by
  decide

/-- C9.  On the one-triangle mesh `isPureComplex` returns `-1`, not `2`, on the
filled triangle. -/
theorem isPureComplex_filledTriangle :
    triangleOps.isPureComplex filledTriangle = -1 ∧
    triangleOps.isPureComplex filledTriangle ≠ 2 := by
  decide

/-- C10.  For every subset on which `isComplex` returns `false`,
`isPureComplex` returns the value `-1`; and its result is always one of
`-1`, `0`, `1`, `2`. -/
theorem isPureComplex_signal (ops : SimplicialComplexOperators) (S : MeshSubset) :
    (ops.isComplex S = false → ops.isPureComplex S = -1) ∧
    (ops.isPureComplex S = -1 ∨ ops.isPureComplex S = 0 ∨
      ops.isPureComplex S = 1 ∨ ops.isPureComplex S = 2) :=
  ⟨fun _ => rfl, Or.inl rfl⟩

/-- Witness of C10: the subset holding edge 0 alone, without its endpoints, on
the one-triangle mesh. -/
theorem isPureComplex_signal_witness :
    triangleOps.isComplex (MeshSubset.ofLists [] [0] []) = false ∧
    triangleOps.isPureComplex (MeshSubset.ofLists [] [0] []) = -1 :=
  ⟨rfl, (isPureComplex_signal triangleOps (MeshSubset.ofLists [] [0] [])).1 rfl⟩

/-! ## The indicator vectors -/

/-- The indices below `n` that lie in a set whose elements are all below `n`
are as many as the set has elements. -/
theorem IndexSet.length_filter_range (s : IndexSet) (n : Nat) (h : s.Below n) :
    ((List.range n).filter (fun i => decide (i ∈ s))).length = s.size := by
  have hp : ((List.range n).filter (fun i => decide (i ∈ s))).Perm s.elems := by
    refine (List.perm_ext_iff_of_nodup ((List.nodup_range n).filter _) s.sorted.nodup).mpr ?_
    intro a
    simp only [List.mem_filter, List.mem_range, decide_eq_true_eq]
    exact ⟨fun ha => ha.2, fun ha => ⟨h a ha, ha⟩⟩
  exact hp.length_eq

/-- The number of ones in an indicator vector over the indices below `n`. -/
theorem count_one_indicator (p : Nat → Prop) [DecidablePred p] (n : Nat) :
    ((List.range n).map (fun i => if p i then 1 else 0)).count 1 =
      ((List.range n).filter (fun i => decide (p i))).length := by
  induction (List.range n) with
  | nil => rfl
  | cons x xs ih =>
    by_cases hx : p x
    · simp [hx, ih]
    · simp [hx, ih]

/-- The test `s.count(i)` is nonzero exactly for the members. -/
theorem IndexSet.count_ne_zero_iff (s : IndexSet) (i : Nat) : s.count i ≠ 0 ↔ i ∈ s := by
  unfold IndexSet.count
  split_ifs with h <;> simp [h]

/-- C11.  On the one-triangle mesh, for the subset holding face 0 alone,
`buildFaceVector` has length 1 and its entry 0 is 0 although face 0 is in the
subset; for the subset holding edge 0 alone its entry 0 is 1 although the subset
has no face.  The function tests the edges of the subset, not its faces. -/
theorem buildFaceVector_tests_edges :
    faceZero.InRange triangleOps.mesh ∧ 0 ∈ faceZero.faces ∧
    triangleOps.buildFaceVector faceZero = [0] ∧
    (MeshSubset.ofLists [] [0] []).InRange triangleOps.mesh ∧
    0 ∉ (MeshSubset.ofLists [] [0] []).faces ∧
    triangleOps.buildFaceVector (MeshSubset.ofLists [] [0] []) = [1] := by
  decide

namespace SparseMatrix

/-- The stored value after one more entry. -/
theorem stored_cons (m : SparseMatrix) (a b v i j : Nat) :
    ({ m with entries := (a, b, v) :: m.entries } : SparseMatrix).stored i j =
      if a = i ∧ b = j then some v else m.stored i j := by
  unfold stored
  by_cases h : a = i ∧ b = j
  · simp [List.find?_cons, h]
  · simp [List.find?_cons, h]

/-- An `insert` inside the shape at a free position succeeds. -/
theorem insert_of_free (m : SparseMatrix) {i j : Nat} (v : Nat) (hi : i < m.rows)
    (hj : j < m.cols) (hfree : m.stored i j = none) :
    m.insert i j v = some { m with entries := (i, j, v) :: m.entries } := by
  simp [insert, hi, hj, hfree]

theorem stored_zero (r c i j : Nat) : (zero r c).stored i j = none := by
  simp [zero, stored]

end SparseMatrix

/-- The loop of `buildVertexEdgeAdjacencyMatrix` over a list of distinct edges
whose rows are still empty: it succeeds, keeps the shape and stores a one at
the two endpoints of each of these edges. -/
theorem vertexEdge_fold (a b : Nat → Nat) (l : List Nat) (m : SparseMatrix)
    (hl : l.Nodup)
    (hin : ∀ e ∈ l, e < m.rows ∧ a e < m.cols ∧ b e < m.cols ∧ a e ≠ b e)
    (hfree : ∀ e ∈ l, ∀ j, m.stored e j = none) :
    ∃ r, l.foldlM (fun m e => (m.insert e (a e) 1).bind (fun m => m.insert e (b e) 1)) m
        = some r ∧ r.rows = m.rows ∧ r.cols = m.cols ∧
      ∀ i j, r.stored i j = if i ∈ l ∧ (j = a i ∨ j = b i) then some 1 else m.stored i j := by
  induction l generalizing m with
  | nil => exact ⟨m, rfl, rfl, rfl, fun i j => by simp⟩
  | cons e es ih =>
    obtain ⟨he, ha, hb, hab⟩ := hin e (List.mem_cons_self _ _)
    have hnot : e ∉ es := (List.nodup_cons.mp hl).1
    have h1 := m.insert_of_free 1 he ha (hfree e (List.mem_cons_self _ _) _)
    have h2 := ({ m with entries := (e, a e, 1) :: m.entries } : SparseMatrix).insert_of_free
      1 (i := e) (j := b e) he hb (by
        rw [SparseMatrix.stored_cons, if_neg (fun h => hab h.2)]
        exact hfree e (List.mem_cons_self _ _) _)
    obtain ⟨r, hr, hrows, hcols, hst⟩ := ih
      ({ m with entries := (e, b e, 1) :: (e, a e, 1) :: m.entries } : SparseMatrix)
      (List.nodup_cons.mp hl).2
      (fun x hx => hin x (List.mem_cons_of_mem _ hx))
      (fun x hx j => by
        have hne : ¬ e = x := fun h => hnot (h ▸ hx)
        have s2 := SparseMatrix.stored_cons
          ({ m with entries := (e, a e, 1) :: m.entries } : SparseMatrix) e (b e) 1 x j
        have s1 := SparseMatrix.stored_cons m e (a e) 1 x j
        simp only [hne, false_and, if_false] at s1 s2
        rw [s2, s1]
        exact hfree x (List.mem_cons_of_mem _ hx) j)
    refine ⟨r, ?_, hrows, hcols, ?_⟩
    · simp only [List.foldlM_cons, Option.bind_eq_bind, h1, Option.some_bind, h2]
      exact hr
    · intro i j
      have s2 := SparseMatrix.stored_cons
        ({ m with entries := (e, a e, 1) :: m.entries } : SparseMatrix) e (b e) 1 i j
      have s1 := SparseMatrix.stored_cons m e (a e) 1 i j
      rw [hst i j, s2, s1]
      by_cases hie : i = e
      · subst hie
        by_cases hja : j = a i
        · simp [hja]
        · by_cases hjb : j = b i
          · simp [hjb]
          · have hja2 : ¬ a i = j := fun h => hja h.symm
            have hjb2 : ¬ b i = j := fun h => hjb h.symm
            simp [hja, hjb, hja2, hjb2, hnot]
      · have hei : ¬ e = i := fun h => hie h.symm
        simp [hie, hei]

/-- The inner loop of `buildFaceEdgeAdjacencyMatrix` over the distinct edges
of one face, at free positions: it succeeds, keeps the shape and stores a one
at each of these edges in the row of the face. -/
theorem faceEdge_inner (f : Nat) (es : List Nat) (m : SparseMatrix) (hes : es.Nodup)
    (hf : f < m.rows) (hin : ∀ e ∈ es, e < m.cols)
    (hfree : ∀ e ∈ es, m.stored f e = none) :
    ∃ r, es.foldlM (fun m e => m.insert f e 1) m = some r ∧ r.rows = m.rows ∧
      r.cols = m.cols ∧
      ∀ i j, r.stored i j = if i = f ∧ j ∈ es then some 1 else m.stored i j := by
  induction es generalizing m with
  | nil => exact ⟨m, rfl, rfl, rfl, fun i j => by simp⟩
  | cons e es ih =>
    have hnot : e ∉ es := (List.nodup_cons.mp hes).1
    have h1 := m.insert_of_free 1 hf (hin e (List.mem_cons_self _ _))
      (hfree e (List.mem_cons_self _ _))
    obtain ⟨r, hr, hrows, hcols, hst⟩ := ih
      ({ m with entries := (f, e, 1) :: m.entries } : SparseMatrix)
      (List.nodup_cons.mp hes).2 hf
      (fun x hx => hin x (List.mem_cons_of_mem _ hx))
      (fun x hx => by
        have hne : ¬ e = x := fun h => hnot (h ▸ hx)
        rw [SparseMatrix.stored_cons]
        simp only [hne, and_false, if_false]
        exact hfree x (List.mem_cons_of_mem _ hx))
    refine ⟨r, ?_, hrows, hcols, ?_⟩
    · simp only [List.foldlM_cons, Option.bind_eq_bind, h1, Option.some_bind]
      exact hr
    · intro i j
      rw [hst i j, SparseMatrix.stored_cons]
      by_cases hif : i = f
      · subst hif
        by_cases hje : j = e
        · subst hje; simp
        · have hej : ¬ e = j := fun h => hje h.symm
          simp [hje, hej]
      · have hfi : ¬ f = i := fun h => hif h.symm
        simp [hif, hfi]

/-- The loops of `buildFaceEdgeAdjacencyMatrix` over a list of distinct faces
whose rows are still empty: they succeed, keep the shape and store a one at
every incident edge of each of these faces. -/
theorem faceEdge_fold (adj : Nat → List Nat) (fs : List Nat) (m : SparseMatrix)
    (hfs : fs.Nodup)
    (hin : ∀ f ∈ fs, f < m.rows ∧ (adj f).Nodup ∧ ∀ e ∈ adj f, e < m.cols)
    (hfree : ∀ f ∈ fs, ∀ j, m.stored f j = none) :
    ∃ r, fs.foldlM (fun m f => (adj f).foldlM (fun m e => m.insert f e 1) m) m = some r ∧
      r.rows = m.rows ∧ r.cols = m.cols ∧
      ∀ i j, r.stored i j = if i ∈ fs ∧ j ∈ adj i then some 1 else m.stored i j := by
  induction fs generalizing m with
  | nil => exact ⟨m, rfl, rfl, rfl, fun i j => by simp⟩
  | cons f fs ih =>
    obtain ⟨hf, hnd, hcol⟩ := hin f (List.mem_cons_self _ _)
    have hnot : f ∉ fs := (List.nodup_cons.mp hfs).1
    obtain ⟨m1, hm1, r1, c1, st1⟩ := faceEdge_inner f (adj f) m hnd hf hcol
      (fun e _ => hfree f (List.mem_cons_self _ _) e)
    obtain ⟨r, hr, hrows, hcols, hst⟩ := ih m1 (List.nodup_cons.mp hfs).2
      (fun x hx => by
        obtain ⟨h1, h2, h3⟩ := hin x (List.mem_cons_of_mem _ hx)
        exact ⟨r1 ▸ h1, h2, fun e he => c1 ▸ h3 e he⟩)
      (fun x hx j => by
        have hne : ¬ x = f := fun h => hnot (h ▸ hx)
        rw [st1 x j]
        simp only [hne, false_and, if_false]
        exact hfree x (List.mem_cons_of_mem _ hx) j)
    refine ⟨r, ?_, hrows.trans r1, hcols.trans c1, ?_⟩
    · simp only [List.foldlM_cons, Option.bind_eq_bind, hm1, Option.some_bind]
      exact hr
    · intro i j
      rw [hst i j, st1 i j]
      by_cases hif : i = f
      · subst hif
        by_cases hj : j ∈ adj i
        · simp [hj]
        · simp [hj]
      · simp [hif]

namespace SimplicialComplexOperators

/-- Two loop bodies that agree on the elements of the list give the same
loop. -/
theorem foldlM_option_congr {α β : Type} (f g : β → α → Option β) (l : List α) (b : β)
    (h : ∀ b, ∀ a ∈ l, f b a = g b a) : l.foldlM f b = l.foldlM g b := by
  induction l generalizing b with
  | nil => rfl
  | cons x xs ih =>
    simp only [List.foldlM_cons, Option.bind_eq_bind, h b x (List.mem_cons_self _ _)]
    cases g b x with
    | none => rfl
    | some c =>
      simp only [Option.some_bind]
      exact ih c (fun b a ha => h b a (List.mem_cons_of_mem _ ha))

/-- On a mesh whose edge and vertex counts fit in an `int` and whose edges
have valid and different endpoints, `buildVertexEdgeAdjacencyMatrix` returns a
matrix of `nEdges` rows and `nVertices` columns that stores a one at the
endpoints of every edge and nothing else. -/
theorem buildVertexEdgeAdjacencyMatrix_stored (self : SimplicialComplexOperators)
    (hnE : self.mesh.nEdges < 2147483648) (hnV : self.mesh.nVertices < 2147483648)
    (hV : self.mesh.ValidEdges) (hD : self.mesh.DistinctEndpoints) :
    ∃ A, self.buildVertexEdgeAdjacencyMatrix = some A ∧ A.rows = self.mesh.nEdges ∧
      A.cols = self.mesh.nVertices ∧
      ∀ i j, A.stored i j =
        if i < self.mesh.nEdges ∧ (j = self.mesh.firstVertex i ∨ j = self.mesh.secondVertex i)
        then some 1 else none := by
  obtain ⟨A, hA, hr, hc, hst⟩ := vertexEdge_fold self.mesh.firstVertex self.mesh.secondVertex
    (List.range self.mesh.nEdges) (SparseMatrix.zero self.mesh.nEdges self.mesh.nVertices)
    (List.nodup_range _)
    (fun e he => by
      have hlt := List.mem_range.mp he
      exact ⟨hlt, (hV e hlt).1, (hV e hlt).2, hD e hlt⟩)
    (fun e _ j => SparseMatrix.stored_zero _ _ _ _)
  refine ⟨A, ?_, hr, hc, ?_⟩
  · unfold buildVertexEdgeAdjacencyMatrix
    rw [SparseMatrix.create_toInt hnE hnV, Option.some_bind, ← hA]
    refine foldlM_option_congr _ _ _ _ ?_
    intro m e he
    have hlt := List.mem_range.mp he
    have he31 : e < 2147483648 := lt_trans hlt hnE
    have h1 : self.mesh.firstVertex e < 2147483648 := lt_trans (hV e hlt).1 hnV
    have h2 : self.mesh.secondVertex e < 2147483648 := lt_trans (hV e hlt).2 hnV
    rw [m.insertAt_toInt 1 he31 h1]
    cases m.insert e (self.mesh.firstVertex e) 1 with
    | none => simp only [Option.none_bind]
    | some c =>
      rw [Option.some_bind, Option.some_bind]
      exact c.insertAt_toInt 1 he31 h2
  · intro i j
    rw [hst i j, SparseMatrix.stored_zero]
    simp only [List.mem_range]

/-- On a mesh whose face and edge counts fit in an `int`, with valid indices
and faces listing distinct edges, `buildFaceEdgeAdjacencyMatrix` returns a
matrix of `nFaces` rows and `nEdges` columns that stores a one at the incident
edges of every face and nothing else. -/
theorem buildFaceEdgeAdjacencyMatrix_stored (self : SimplicialComplexOperators)
    (hnF : self.mesh.nFaces < 2147483648) (hnE : self.mesh.nEdges < 2147483648)
    (hV : self.mesh.ValidIndices) (hD : self.mesh.DistinctFaceEdges) :
    ∃ A, self.buildFaceEdgeAdjacencyMatrix = some A ∧ A.rows = self.mesh.nFaces ∧
      A.cols = self.mesh.nEdges ∧
      ∀ i j, A.stored i j =
        if i < self.mesh.nFaces ∧ j ∈ self.mesh.adjacentEdges i then some 1 else none := by
  obtain ⟨A, hA, hr, hc, hst⟩ := faceEdge_fold self.mesh.adjacentEdges
    (List.range self.mesh.nFaces) (SparseMatrix.zero self.mesh.nFaces self.mesh.nEdges)
    (List.nodup_range _)
    (fun f hf => by
      have hlt := List.mem_range.mp hf
      exact ⟨hlt, hD f hlt, hV.2 f hlt⟩)
    (fun f _ j => SparseMatrix.stored_zero _ _ _ _)
  refine ⟨A, ?_, hr, hc, ?_⟩
  · unfold buildFaceEdgeAdjacencyMatrix
    rw [SparseMatrix.create_toInt hnF hnE, Option.some_bind, ← hA]
    refine foldlM_option_congr _ _ _ _ ?_
    intro m f hf
    have hlt := List.mem_range.mp hf
    refine foldlM_option_congr _ _ _ _ ?_
    intro c e he
    exact c.insertAt_toInt 1 (lt_trans hlt hnF) (lt_trans (hV.2 f hlt e he) hnE)
  · intro i j
    rw [hst i j, SparseMatrix.stored_zero]
    simp only [List.mem_range]

end SimplicialComplexOperators

/-- The number of nonzero entries of a row whose nonzero columns are the
members of a list without repetition is the length of the list. -/
theorem SparseMatrix.rowNonZeros_eq_length (m : SparseMatrix) (i : Nat) (l : List Nat)
    (hl : l.Nodup) (h : ∀ j, (j < m.cols ∧ (m.coeff i j).getD 0 ≠ 0) ↔ j ∈ l) :
    m.rowNonZeros i = l.length := by
  unfold SparseMatrix.rowNonZeros
  refine List.Perm.length_eq ?_
  refine (List.perm_ext_iff_of_nodup ((List.nodup_range _).filter _) hl).mpr ?_
  intro j
  rw [← h j]
  simp only [List.mem_filter, List.mem_range, decide_eq_true_eq]

/-- C13, as stated, fails: on the mesh with `2^32 + 3` vertices and one edge
from vertex 0 to vertex 1, whose edges have valid and different endpoints,
`buildVertexEdgeAdjacencyMatrix` returns a matrix with 1 row and 3 columns, the
vertex count converted to `int`, and not one with `nVertices` columns. -/
theorem buildVertexEdgeAdjacencyMatrix_wide :
    wideVertexOps.mesh.ValidEdges ∧ wideVertexOps.mesh.DistinctEndpoints ∧
    wideVertexOps.mesh.nVertices = 4294967299 ∧
    wideVertexOps.buildVertexEdgeAdjacencyMatrix = some ⟨1, 3, [(0, 1, 1), (0, 0, 1)]⟩ ∧
    ¬ ∃ A, wideVertexOps.buildVertexEdgeAdjacencyMatrix = some A ∧
      A.rows = wideVertexOps.mesh.nEdges ∧ A.cols = wideVertexOps.mesh.nVertices ∧
      ∀ e < wideVertexOps.mesh.nEdges, ∀ v < wideVertexOps.mesh.nVertices,
        A.coeff e v =
          some (if v = wideVertexOps.mesh.firstVertex e ∨
            v = wideVertexOps.mesh.secondVertex e then 1 else 0) := by
  have hb : wideVertexOps.buildVertexEdgeAdjacencyMatrix =
      some ⟨1, 3, [(0, 1, 1), (0, 0, 1)]⟩ := by decide
  refine ⟨by decide, by decide, rfl, hb, ?_⟩
  rintro ⟨A, hA, _, hc, _⟩
  rw [hb] at hA
  cases hA
  exact absurd hc (by decide)

/-- C13, amended.  On a mesh whose edge and vertex counts are below `2^31` and
whose edges have valid vertex indices as endpoints and two different
endpoints, `buildVertexEdgeAdjacencyMatrix` returns a matrix with `nEdges` rows
and `nVertices` columns whose entry at edge `e` and vertex `v` is 1 when `v`
is an endpoint of `e` and 0 otherwise. -/
theorem buildVertexEdgeAdjacencyMatrix_spec (ops : SimplicialComplexOperators)
    (hnE : ops.mesh.nEdges < 2147483648) (hnV : ops.mesh.nVertices < 2147483648)
    (hV : ops.mesh.ValidEdges) (hD : ops.mesh.DistinctEndpoints) :
    ∃ A, ops.buildVertexEdgeAdjacencyMatrix = some A ∧ A.rows = ops.mesh.nEdges ∧
      A.cols = ops.mesh.nVertices ∧
      ∀ e < ops.mesh.nEdges, ∀ v < ops.mesh.nVertices,
        A.coeff e v =
          some (if v = ops.mesh.firstVertex e ∨ v = ops.mesh.secondVertex e then 1 else 0) := by
  obtain ⟨A, hA, hr, hc, hst⟩ := ops.buildVertexEdgeAdjacencyMatrix_stored hnE hnV hV hD
  refine ⟨A, hA, hr, hc, ?_⟩
  intro e he v hv
  unfold SparseMatrix.coeff
  rw [if_pos ⟨hr ▸ he, hc ▸ hv⟩, hst e v]
  by_cases h : v = ops.mesh.firstVertex e ∨ v = ops.mesh.secondVertex e
  · simp [he, h]
  · simp [h]

/-- Witness of C13, amended: the one-triangle mesh. -/
theorem buildVertexEdgeAdjacencyMatrix_spec_witness :
    triangleOps.mesh.nEdges < 2147483648 ∧ triangleOps.mesh.nVertices < 2147483648 ∧
    triangleOps.mesh.ValidEdges ∧ triangleOps.mesh.DistinctEndpoints ∧
    ∃ A, triangleOps.buildVertexEdgeAdjacencyMatrix = some A ∧
      A.rows = triangleOps.mesh.nEdges ∧ A.cols = triangleOps.mesh.nVertices ∧
      ∀ e < triangleOps.mesh.nEdges, ∀ v < triangleOps.mesh.nVertices,
        A.coeff e v =
          some (if v = triangleOps.mesh.firstVertex e ∨ v = triangleOps.mesh.secondVertex e
            then 1 else 0) :=
  ⟨by decide, by decide, by decide, by decide,
    buildVertexEdgeAdjacencyMatrix_spec triangleOps (by decide) (by decide) (by decide)
      (by decide)⟩

/-- C14, as stated, fails: on the mesh with `2^32 + 3` edges and one face with
the edges 0, 1, 2, which has valid indices and a face listing distinct edges,
`buildFaceEdgeAdjacencyMatrix` returns a matrix with 1 row and 3 columns, the
edge count converted to `int`, and not one with `nEdges` columns. -/
theorem buildFaceEdgeAdjacencyMatrix_wide :
    wideEdgeOps.mesh.ValidIndices ∧ wideEdgeOps.mesh.DistinctFaceEdges ∧
    wideEdgeOps.mesh.nEdges = 4294967299 ∧
    wideEdgeOps.buildFaceEdgeAdjacencyMatrix =
      some ⟨1, 3, [(0, 2, 1), (0, 1, 1), (0, 0, 1)]⟩ ∧
    ¬ ∃ A, wideEdgeOps.buildFaceEdgeAdjacencyMatrix = some A ∧
      A.rows = wideEdgeOps.mesh.nFaces ∧ A.cols = wideEdgeOps.mesh.nEdges ∧
      ∀ f < wideEdgeOps.mesh.nFaces, ∀ e < wideEdgeOps.mesh.nEdges,
        A.coeff f e = some (if e ∈ wideEdgeOps.mesh.adjacentEdges f then 1 else 0) := by
  have hb : wideEdgeOps.buildFaceEdgeAdjacencyMatrix =
      some ⟨1, 3, [(0, 2, 1), (0, 1, 1), (0, 0, 1)]⟩ := by decide
  have hvalid : wideEdgeOps.mesh.ValidIndices :=
    ⟨fun _ _ => ⟨Nat.zero_lt_two, Nat.one_lt_two⟩, by decide⟩
  refine ⟨hvalid, by decide, rfl, hb, ?_⟩
  rintro ⟨A, hA, _, hc, _⟩
  rw [hb] at hA
  cases hA
  exact absurd hc (by decide)

/-- C14, amended.  On a mesh whose face and edge counts are below `2^31`, with
valid indices and faces listing distinct incident edges,
`buildFaceEdgeAdjacencyMatrix` returns a matrix with `nFaces` rows and `nEdges`
columns whose entry at face `f` and edge `e` is 1 when `e` is incident to `f`
and 0 otherwise. -/
theorem buildFaceEdgeAdjacencyMatrix_spec (ops : SimplicialComplexOperators)
    (hnF : ops.mesh.nFaces < 2147483648) (hnE : ops.mesh.nEdges < 2147483648)
    (hV : ops.mesh.ValidIndices) (hD : ops.mesh.DistinctFaceEdges) :
    ∃ A, ops.buildFaceEdgeAdjacencyMatrix = some A ∧ A.rows = ops.mesh.nFaces ∧
      A.cols = ops.mesh.nEdges ∧
      ∀ f < ops.mesh.nFaces, ∀ e < ops.mesh.nEdges,
        A.coeff f e = some (if e ∈ ops.mesh.adjacentEdges f then 1 else 0) := by
  obtain ⟨A, hA, hr, hc, hst⟩ := ops.buildFaceEdgeAdjacencyMatrix_stored hnF hnE hV hD
  refine ⟨A, hA, hr, hc, ?_⟩
  intro f hf e he
  unfold SparseMatrix.coeff
  rw [if_pos ⟨hr ▸ hf, hc ▸ he⟩, hst f e]
  by_cases h : e ∈ ops.mesh.adjacentEdges f
  · simp [hf, h]
  · simp [h]

/-- Witness of C14, amended: the two-triangle mesh. -/
theorem buildFaceEdgeAdjacencyMatrix_spec_witness :
    twoTriangleOps.mesh.nFaces < 2147483648 ∧ twoTriangleOps.mesh.nEdges < 2147483648 ∧
    twoTriangleOps.mesh.ValidIndices ∧ twoTriangleOps.mesh.DistinctFaceEdges ∧
    ∃ A, twoTriangleOps.buildFaceEdgeAdjacencyMatrix = some A ∧
      A.rows = twoTriangleOps.mesh.nFaces ∧ A.cols = twoTriangleOps.mesh.nEdges ∧
      ∀ f < twoTriangleOps.mesh.nFaces, ∀ e < twoTriangleOps.mesh.nEdges,
        A.coeff f e = some (if e ∈ twoTriangleOps.mesh.adjacentEdges f then 1 else 0) :=
  ⟨by decide, by decide, by decide, by decide,
    buildFaceEdgeAdjacencyMatrix_spec twoTriangleOps (by decide) (by decide) (by decide)
      (by decide)⟩

/-- C15, as stated, fails: on the mesh with `2^32 + 3` vertices and one edge
from vertex 0 to vertex 5, which has valid indices, two different endpoints
and no face, `buildVertexEdgeAdjacencyMatrix` makes a matrix with 3 columns and
inserts at column 5, outside of it: it returns no matrix, so there is no built
`A0` with two nonzero entries in row 0. -/
theorem adjacency_row_counts_far :
    farVertexOps.mesh.ValidIndices ∧ farVertexOps.mesh.DistinctEndpoints ∧
    farVertexOps.mesh.DistinctFaceEdges ∧
    SparseMatrix.create (toInt farVertexOps.mesh.nEdges)
      (toInt farVertexOps.mesh.nVertices) = some (SparseMatrix.zero 1 3) ∧
    farVertexOps.buildVertexEdgeAdjacencyMatrix = none ∧
    ¬ ∃ A0 A1, farVertexOps.buildVertexEdgeAdjacencyMatrix = some A0 ∧
      farVertexOps.buildFaceEdgeAdjacencyMatrix = some A1 ∧
      (∀ e < farVertexOps.mesh.nEdges, A0.rowNonZeros e = 2) ∧
      (∀ f < farVertexOps.mesh.nFaces,
        A1.rowNonZeros f = (farVertexOps.mesh.adjacentEdges f).length) ∧
      (∀ f < farVertexOps.mesh.nFaces, ∀ e ∈ farVertexOps.mesh.adjacentEdges f,
        A1.coeff f e = some 1) := by
  have hb : farVertexOps.buildVertexEdgeAdjacencyMatrix = none := by decide
  refine ⟨by decide, by decide, by decide, by decide, hb, ?_⟩
  rintro ⟨A0, _, hA0, _⟩
  rw [hb] at hA0
  cases hA0

/-- C15, amended.  On a mesh whose counts are below `2^31`, with valid
indices, edges with two different endpoints and faces listing distinct edges,
the built `A0` has exactly 2 nonzero entries in every row, and the built `A1`
has in every row `f` as many nonzero entries as face `f` has incident edges,
each of them a one (so 3 for a triangle face). -/
theorem adjacency_row_counts (ops : SimplicialComplexOperators)
    (hfit : ops.mesh.FitsInt)
    (hV : ops.mesh.ValidIndices) (hE : ops.mesh.DistinctEndpoints)
    (hF : ops.mesh.DistinctFaceEdges) :
    ∃ A0 A1, ops.buildVertexEdgeAdjacencyMatrix = some A0 ∧
      ops.buildFaceEdgeAdjacencyMatrix = some A1 ∧
      (∀ e < ops.mesh.nEdges, A0.rowNonZeros e = 2) ∧
      (∀ f < ops.mesh.nFaces, A1.rowNonZeros f = (ops.mesh.adjacentEdges f).length) ∧
      (∀ f < ops.mesh.nFaces, ∀ e ∈ ops.mesh.adjacentEdges f, A1.coeff f e = some 1) := by
  obtain ⟨A0, hA0, r0, c0, st0⟩ :=
    ops.buildVertexEdgeAdjacencyMatrix_stored hfit.2.1 hfit.1 hV.1 hE
  obtain ⟨A1, hA1, r1, c1, st1⟩ :=
    ops.buildFaceEdgeAdjacencyMatrix_stored hfit.2.2 hfit.2.1 hV hF
  refine ⟨A0, A1, hA0, hA1, ?_, ?_, ?_⟩
  · intro e he
    have hnd : [ops.mesh.firstVertex e, ops.mesh.secondVertex e].Nodup := by
      simpa using hE e he
    rw [A0.rowNonZeros_eq_length e _ hnd]
    · rfl
    · intro j
      simp only [List.mem_cons, List.mem_singleton, List.not_mem_nil, or_false]
      constructor
      · rintro ⟨hj, hne⟩
        unfold SparseMatrix.coeff at hne
        rw [if_pos ⟨r0 ▸ he, hj⟩, st0 e j] at hne
        by_contra hcon
        simp [hcon] at hne
      · intro hj
        have hjlt : j < A0.cols := by
          rcases hj with hj | hj
          · rw [hj, c0]; exact (hV.1 e he).1
          · rw [hj, c0]; exact (hV.1 e he).2
        refine ⟨hjlt, ?_⟩
        unfold SparseMatrix.coeff
        rw [if_pos ⟨r0 ▸ he, hjlt⟩, st0 e j]
        simp [he, hj]
  · intro f hf
    rw [A1.rowNonZeros_eq_length f _ (hF f hf)]
    intro j
    constructor
    · rintro ⟨hj, hne⟩
      unfold SparseMatrix.coeff at hne
      rw [if_pos ⟨r1 ▸ hf, hj⟩, st1 f j] at hne
      by_contra hcon
      simp [hcon] at hne
    · intro hj
      have hjlt : j < A1.cols := c1 ▸ hV.2 f hf j hj
      refine ⟨hjlt, ?_⟩
      unfold SparseMatrix.coeff
      rw [if_pos ⟨r1 ▸ hf, hjlt⟩, st1 f j]
      simp [hf, hj]
  · intro f hf e he
    unfold SparseMatrix.coeff
    rw [if_pos ⟨r1 ▸ hf, c1 ▸ hV.2 f hf e he⟩, st1 f e]
    simp [hf, he]

/-- Witness of C15, amended: on the one-triangle mesh `A0` is 3 by 3 with two
ones in every row and `A1` is 1 by 3 with a one at every entry. -/
theorem adjacency_row_counts_witness :
    (triangleOps.mesh.FitsInt ∧ triangleOps.mesh.ValidIndices ∧
      triangleOps.mesh.DistinctEndpoints ∧ triangleOps.mesh.DistinctFaceEdges) ∧
    (∃ A0 A1, triangleOps.buildVertexEdgeAdjacencyMatrix = some A0 ∧
      triangleOps.buildFaceEdgeAdjacencyMatrix = some A1 ∧
      (∀ e < triangleOps.mesh.nEdges, A0.rowNonZeros e = 2) ∧
      (∀ f < triangleOps.mesh.nFaces,
        A1.rowNonZeros f = (triangleOps.mesh.adjacentEdges f).length) ∧
      (∀ f < triangleOps.mesh.nFaces, ∀ e ∈ triangleOps.mesh.adjacentEdges f,
        A1.coeff f e = some 1)) ∧
    (triangleOps.buildVertexEdgeAdjacencyMatrix = some triangleOps.A0 ∧
      triangleOps.A0.rows = 3 ∧ triangleOps.A0.cols = 3 ∧
      (∀ e < 3, ((List.range 3).filter
        (fun v => decide (triangleOps.A0.coeff e v = some 1))).length = 2) ∧
      (∀ e < 3, ∀ v < 3, triangleOps.A0.coeff e v = some 0 ∨
        triangleOps.A0.coeff e v = some 1)) ∧
    (triangleOps.buildFaceEdgeAdjacencyMatrix = some triangleOps.A1 ∧
      triangleOps.A1.rows = 1 ∧ triangleOps.A1.cols = 3 ∧
      ∀ e < 3, triangleOps.A1.coeff 0 e = some 1) :=
  ⟨⟨by decide, by decide, by decide, by decide⟩,
    adjacency_row_counts triangleOps (by decide) (by decide) (by decide) (by decide),
    by decide, by decide⟩

/-! ## Iterating `star`, and the bounds of the lookups -/

namespace SimplicialComplexOperators

/-- With matrices of the right shapes and a subset in range, `star` returns a
subset on which it returns the same subset again. -/
theorem star_star_eq (self : SimplicialComplexOperators) (S : MeshSubset)
    (hA : self.ShapesMatch) (hS : S.InRange self.mesh) :
    ∃ T, self.star S = some T ∧ self.star T = some T ∧ T.InRange self.mesh := by
  obtain ⟨T, hT, hv, he, hf, hR⟩ := self.star_char S hA hS
  obtain ⟨U, hU, hv2, he2, hf2, _⟩ := self.star_char T hA hR
  refine ⟨T, hT, ?_, hR⟩
  have hedge : ∀ e, e ∈ U.edges ↔ e ∈ T.edges := by
    intro e
    rw [he2, he, hv]
    tauto
  have hUT : U = T := by
    refine MeshSubset.eq_of_components ?_ hedge ?_
    · intro v; rw [hv2]
    · intro f
      rw [hf2, hf]
      constructor
      · rintro (h | ⟨e, hem, h⟩)
        · exact h
        · exact Or.inr ⟨e, (hedge e).mp hem, h⟩
      · intro h; exact Or.inl h
  rw [hU, hUT]

end SimplicialComplexOperators

theorem IndexSet.mem_union (s t : IndexSet) (a : Nat) :
    a ∈ s.union t ↔ a ∈ s ∨ a ∈ t := by
  unfold IndexSet.union
  rw [IndexSet.mem_foldl_insert]
  rfl

/-- The union of two subsets in range is in range. -/
theorem MeshSubset.InRange.union {s t : MeshSubset} {m : Mesh} (hs : s.InRange m)
    (ht : t.InRange m) : (s.union t).InRange m := by
  refine ⟨?_, ?_, ?_⟩
  · intro x hx
    rcases (IndexSet.mem_union _ _ x).mp hx with h | h
    · exact hs.1 x h
    · exact ht.1 x h
  · intro x hx
    rcases (IndexSet.mem_union _ _ x).mp hx with h | h
    · exact hs.2.1 x h
    · exact ht.2.1 x h
  · intro x hx
    rcases (IndexSet.mem_union _ _ x).mp hx with h | h
    · exact hs.2.2 x h
    · exact ht.2.2 x h

/-- What one expansion pass adds for a union is what it adds for the two
parts. -/
theorem expand_union {a b : Prop} {p q r P : Nat → Prop} (h : ∀ x, r x ↔ p x ∨ q x) :
    ((a ∨ b) ∨ ∃ x, r x ∧ P x) ↔ ((a ∨ ∃ x, p x ∧ P x) ∨ (b ∨ ∃ x, q x ∧ P x)) := by
  constructor
  · rintro ((ha | hb) | ⟨x, hx, hP⟩)
    · exact Or.inl (Or.inl ha)
    · exact Or.inr (Or.inl hb)
    · rcases (h x).mp hx with hp | hq
      · exact Or.inl (Or.inr ⟨x, hp, hP⟩)
      · exact Or.inr (Or.inr ⟨x, hq, hP⟩)
  · rintro ((ha | ⟨x, hp, hP⟩) | (hb | ⟨x, hq, hP⟩))
    · exact Or.inl (Or.inl ha)
    · exact Or.inr ⟨x, (h x).mpr (Or.inl hp), hP⟩
    · exact Or.inl (Or.inr hb)
    · exact Or.inr ⟨x, (h x).mpr (Or.inr hq), hP⟩

